import Mathlib

/-!
Verification of the guide-counting pipeline of this repository.

The development shallowly embeds the two scripts:
  * `SeqIO_exploration.py` : `FastqGeneralIterator`, the FASTQ record reader
    that resolves the ambiguity of quality lines starting with "@".
  * `main.py` : `get_nucleotides_from_fq` (line extraction `[1::4]`),
    `mmap_grep_calc` (`len(re.findall(pattern, mmap))` over a chunk file),
    `compute_results` (one partial table per chunk), the `np.array_split`
    partitioner, and the `reduce(lambda a, b: a.add(b, fill_value=0))`
    merge followed by `to_csv`.

Lines of a text stream are modelled as `List Char` values with the trailing
newline already removed (Python file iteration never yields an empty line;
a blank line is "\n" there and `[]` here, which the first-character tests
treat identically).  Machine strings are `List Char`; `String` appears only
at the interfaces, via `String.data` / `String.mk`.
-/

/-- `line.rstrip()` of Python: drop trailing whitespace. -/
def rstripL (cs : List Char) : List Char :=
  (cs.reverse.dropWhile Char.isWhitespace).reverse

/-- `line[0] == c` of Python: first-character test, `false` on an empty line. -/
def startsWithL (c : Char) : List Char → Bool
  | [] => false
  | x :: _ => x = c

/-- Boolean list-prefix test, the matching step of the substring scanners. -/
def isPrefixL : List Char → List Char → Bool
  | [], _ => true
  | _ :: _, [] => false
  | a :: p, b :: l => a = b && isPrefixL p l

/-- Scanner behind `len(re.findall(pattern, buffer))` for a literal pattern:
left-to-right scan, counting leftmost non-overlapping matches; `skip`
positions are still being consumed by the previous match.  (For the empty
pattern `re.findall` returns `len + 1` while this returns `0`; every guide
pattern in the program is non-empty, and all theorems assume that.) -/
def countOccAux (pat : List Char) (skip : Nat) : List Char → Nat
  | [] => 0
  | c :: rest =>
    match skip with
    | s + 1 => countOccAux pat s rest
    | 0 =>
      if isPrefixL pat (c :: rest) ∧ pat ≠ [] then
        countOccAux pat (pat.length - 1) rest + 1
      else
        countOccAux pat 0 rest

/-- Number of leftmost non-overlapping occurrences of `pat` in `s`,
as counted by `len(re.findall(pat, s))` for a literal pattern. -/
def countOcc (pat s : List Char) : Nat := countOccAux pat 0 s

/-- `pattern in line` of Python: substring presence test. -/
def containsSub (pat : List Char) : List Char → Bool
  | [] => pat.isEmpty
  | c :: rest => isPrefixL pat (c :: rest) || containsSub pat rest

/-- Modelled from the spec: `my_grep_calc`, the per-read presence counter.
`src/tests.py` calls `main.my_grep_calc(pattern, lines)`, but no function of
that name exists under `src/`; per spec section 4.3 semantic (a) it counts
the number of reads of the chunk in which the pattern matches at least
once. -/
def my_grep_calc (pattern : String) (lines : List String) : Nat :=
  (lines.filter (fun l => containsSub pattern.data l.data)).length

/-- `mmap_grep_calc` of `main.py`: `len(re.findall(pattern, mmap_file))`
over the whole chunk-file buffer. -/
def mmap_grep_calc (pattern : String) (content : List Char) : Nat :=
  countOcc pattern.data content

example : my_grep_calc "ATGCACA" ["ATGCACACACA", "TGNTTTACGAA", "ATGCACAATGCACA"] = 2 := by
  decide

example : countOcc "ATGCACA".data "ATGCACAATGCACA".data = 2 := by decide

example : mmap_grep_calc "ATGCACA" ("ATGCACACACA\nTGNTTTACGAA\nATGCACAATGCACA\n".data) = 3 := by
  decide

/-! ## The FASTQ record reader (`FastqGeneralIterator` of `SeqIO_exploration.py`)

The Python generator keeps an implicit "current line" across its three inner
loops.  The embedding makes that state explicit: `PState` is the position
inside the current record, `fqStep` consumes one line, `fqFinish` is the
end-of-stream behaviour of each loop (the `for … else` clauses), and
`fqRunGo` folds a whole line list.  Each `ValueError` of the source becomes
one constructor of `FqError`. -/

/-- One record: `(title, sequence, quality)`. -/
abbrev RecL := List Char × List Char × List Char

/-- The `ValueError`s raised by `FastqGeneralIterator`, one constructor per
`raise` site. -/
inductive FqError where
  /-- "Records in Fastq files should start with '@' character" -/
  | malformedStart : FqError
  /-- "End of file without quality information." -/
  | eofNoQuality : FqError
  /-- "Unexpected end of file" -/
  | unexpectedEof : FqError
  /-- "Sequence and quality captions differ." -/
  | captionMismatch : FqError
  /-- "Whitespace is not allowed in the sequence." -/
  | whitespaceInSeq : FqError
  /-- "Lengths of sequence and quality values differs for %s (%i and %i)." -/
  | lengthMismatch : String → Nat → Nat → FqError
deriving DecidableEq

/-- Parser position: expecting the `@` title line, accumulating sequence
lines until the `+` line, or accumulating quality lines.  The `Bool` of
`readingQual` records whether at least one quality line has been consumed
(the `line = None` sentinel of the source). -/
inductive PState where
  | expectTitle : PState
  | readingSeq : List Char → List Char → PState
  | readingQual : List Char → List Char → List Char → Bool → PState
deriving DecidableEq

/-- Consume one line of the stream.  Mirrors, in order, the checks of the
source: the `@` check of the title line; the `+` detection, second-title
comparison and whitespace check; and the quality-loop test
`line[0] == "@" and len(quality_string) >= seq_len`, which either ends the
record (emitting it and treating the line as the next title) or appends the
stripped line to the quality. -/
def fqStep (recs : List RecL) (st : PState) (l : List Char) :
    Except FqError (List RecL × PState) :=
  match st with
  | .expectTitle =>
    if startsWithL '@' l then
      .ok (recs, .readingSeq (rstripL (l.drop 1)) [])
    else
      .error .malformedStart
  | .readingSeq title seq =>
    if startsWithL '+' l then
      let second := rstripL (l.drop 1)
      if second ≠ [] ∧ second ≠ title then
        .error .captionMismatch
      else if ' ' ∈ seq ∨ '\t' ∈ seq then
        .error .whitespaceInSeq
      else
        .ok (recs, .readingQual title seq [] false)
    else
      .ok (recs, .readingSeq title (seq ++ rstripL l))
  | .readingQual title seq qual _started =>
    if startsWithL '@' l ∧ seq.length ≤ qual.length then
      if seq.length = qual.length then
        .ok (recs ++ [(title, seq, qual)], .readingSeq (rstripL (l.drop 1)) [])
      else
        .error (.lengthMismatch (String.mk title) seq.length qual.length)
    else
      .ok (recs, .readingQual title seq (qual ++ rstripL l) true)

/-- End-of-stream behaviour: the `for … else` clauses of the source.  In the
quality loop the source first raises "Unexpected end of file" when no
quality line at all was read, and only then compares the lengths. -/
def fqFinish (recs : List RecL) (st : PState) : Except FqError (List RecL) :=
  match st with
  | .expectTitle => .ok recs
  | .readingSeq _ seq =>
    if seq ≠ [] then .error .eofNoQuality else .error .unexpectedEof
  | .readingQual title seq qual started =>
    match started with
    | false => .error .unexpectedEof
    | true =>
      if seq.length = qual.length then
        .ok (recs ++ [(title, seq, qual)])
      else
        .error (.lengthMismatch (String.mk title) seq.length qual.length)

/-- Run the parser over a list of lines. -/
def fqRunGo (recs : List RecL) (st : PState) : List (List Char) → Except FqError (List RecL)
  | [] => fqFinish recs st
  | l :: rest =>
    match fqStep recs st l with
    | .error e => .error e
    | .ok p => fqRunGo p.1 p.2 rest

/-- `FastqGeneralIterator`: parse a stream, given as its list of lines
(terminators already removed), into the list of yielded
`(title, sequence, quality)` records, or the first error raised. -/
def fastqGeneralIterator (lines : List String) :
    Except FqError (List (String × String × String)) :=
  (fqRunGo [] .expectTitle (lines.map String.data)).map
    (fun rs => rs.map (fun r => (String.mk r.1, String.mk r.2.1, String.mk r.2.2)))

/-- The canonical four-record "tricky" example from the docstring of
`FastqGeneralIterator`: the second record's quality is a single line that
starts with "@", and the fourth record's sequence and quality are each
split over two lines, the second quality line starting with "@". -/
def trickyFastq : List String :=
  [ "@071113_EAS56_0053:1:1:998:236",
    "TTTCTTGCCCCCATAGACTGAGACCTTCCCTAAATA",
    "+071113_EAS56_0053:1:1:998:236",
    "IIIIIIIIIIIIIIIIIIIIIIIIIIIIICII+III",
    "@071113_EAS56_0053:1:1:182:712",
    "ACCCAGCTAATTTTTGTATTTTTGTTAGAGACAGTG",
    "+",
    "@IIIIIIIIIIIIIIICDIIIII<%<6&-*).(*%+",
    "@071113_EAS56_0053:1:1:153:10",
    "TGTTCTGAAGGAAGGTGTGCGTGCGTGTGTGTGTGT",
    "+",
    "IIIIIIIIIIIICIIGIIIII>IAIIIE65I=II:6",
    "@071113_EAS56_0053:1:3:990:501",
    "TGGGAGGTTTTATGTGGA",
    "AAGCAGCAATGTACAAGA",
    "+",
    "IIIIIII.IIIIII1@44",
    "@-7.%<&+/$/%4(++(%" ]

/-- The records the docstring shows for `trickyFastq`. -/
def trickyRecords : List (String × String × String) :=
  [ ("071113_EAS56_0053:1:1:998:236",
     "TTTCTTGCCCCCATAGACTGAGACCTTCCCTAAATA",
     "IIIIIIIIIIIIIIIIIIIIIIIIIIIIICII+III"),
    ("071113_EAS56_0053:1:1:182:712",
     "ACCCAGCTAATTTTTGTATTTTTGTTAGAGACAGTG",
     "@IIIIIIIIIIIIIIICDIIIII<%<6&-*).(*%+"),
    ("071113_EAS56_0053:1:1:153:10",
     "TGTTCTGAAGGAAGGTGTGCGTGCGTGTGTGTGTGT",
     "IIIIIIIIIIIICIIGIIIII>IAIIIE65I=II:6"),
    ("071113_EAS56_0053:1:3:990:501",
     "TGGGAGGTTTTATGTGGAAAGCAGCAATGTACAAGA",
     "IIIIIII.IIIIII1@44@-7.%<&+/$/%4(++(%") ]

example : fastqGeneralIterator trickyFastq = Except.ok trickyRecords := rfl

example : fastqGeneralIterator ["@seq1", "ACGT", "+", "AB"]
    = Except.error (FqError.lengthMismatch "seq1" 4 2) := rfl

example : fastqGeneralIterator [] = Except.ok [] := rfl

example : fastqGeneralIterator ["@seq1", "ACGT", "+"]
    = Except.error FqError.unexpectedEof := rfl

/-! ## The aggregation pipeline (`main.py`)

`get_nucleotides_from_fq` keeps every fourth line starting at index 1, each
line still carrying its trailing `'\n'` byte (`mmap.readline` keeps it).
`np.array_split` cuts the list into `k` parts, the first `l % k` of size
`l / k + 1` and the rest of size `l / k`.  Each chunk file is the plain
concatenation `b''.join(part)` of its lines.  `compute_results` emits, per
chunk, one `(gene, exone, occurence)` row per guide in catalog order, and
the merge is `reduce(lambda a, b: a.add(b, fill_value=0))` over the partial
tables followed by `to_csv`. -/

/-- The `[1::4]` slice of `get_nucleotides_from_fq`: elements at indices
1, 5, 9, …. -/
def takeEvery4From1 {α : Type} : List α → List α
  | _ :: x :: _ :: _ :: rest => x :: takeEvery4From1 rest
  | [_, x, _] => [x]
  | [_, x] => [x]
  | _ => []

/-- `get_nucleotides_from_fq` of `main.py`, on the file's line list (lines
keep their trailing newline byte, as with `mmap.readline`). -/
def get_nucleotides_from_fq (lines : List (List Char)) : List (List Char) :=
  takeEvery4From1 lines

/-- Section sizes of `np.array_split(items, k)` on a length-`l` input:
`l % k` sections of size `l / k + 1`, then `k - l % k` of size `l / k`. -/
def splitSizes (l k : Nat) : List Nat :=
  List.replicate (l % k) (l / k + 1) ++ List.replicate (k - l % k) (l / k)

/-- Cut a list into consecutive pieces of the given sizes. -/
def splitBySizes {α : Type} : List α → List Nat → List (List α)
  | _, [] => []
  | xs, n :: ns => xs.take n :: splitBySizes (xs.drop n) ns

/-- `np.array_split(items, k)`. -/
def array_split {α : Type} (items : List α) (k : Nat) : List (List α) :=
  splitBySizes items (splitSizes items.length k)

example : array_split [1, 2, 3, 4, 5] 3 = [[1, 2], [3, 4], [5]] := by decide

example : array_split ([] : List Nat) 3 = [[], [], []] := by decide

/-- One `GuideEntry` of the guide catalog: `(CODE, GENES, EXONE)`.  The
pipeline consumes the catalog as the ordered mapping `guides_dict`
(insertion-ordered, codes assumed unique within a run). -/
structure GuideEntry where
  code : String
  gene : String
  exon : String
deriving DecidableEq

/-- A counts table keyed by `(gene, exone)`, as stored in the `df_*.out`
files and the final output: ordered rows of key and occurrence. -/
abbrev Table := List ((String × String) × Nat)

/-- A table with one row per guide, in catalog order. -/
def mkTable (guides : List GuideEntry) (v : GuideEntry → Nat) : Table :=
  guides.map (fun g => ((g.gene, g.exon), v g))

/-- `compute_results` of `main.py`: one row per guide of `guides_dict`, in
catalog order, counting the guide's pattern in the chunk file with
`mmap_grep_calc`. -/
def computeResults (guides : List GuideEntry) (chunkContent : List Char) : Table :=
  mkTable guides (fun g => mmap_grep_calc g.code chunkContent)

/-- Strict lexicographic comparison of two character lists by code point. -/
def strLtL : List Char → List Char → Bool
  | [], [] => false
  | [], _ :: _ => true
  | _ :: _, [] => false
  | a :: as, b :: bs => if a = b then strLtL as bs else decide (a.toNat < b.toNat)

/-- Lexicographic order on `(gene, exone)` keys, the sort order of
`pandas.Index.union`. -/
def keyLe (a b : String × String) : Bool :=
  strLtL a.1.data b.1.data || (a.1 == b.1 && !strLtL b.2.data a.2.data)

/-- Insert into a `keyLe`-sorted list. -/
def insertKey (x : String × String) :
    List (String × String) → List (String × String)
  | [] => [x]
  | y :: ys => if keyLe x y then x :: y :: ys else y :: insertKey x ys

/-- Insertion sort by `keyLe`. -/
def sortKeys (ks : List (String × String)) : List (String × String) :=
  ks.foldr insertKey []

/-- Collapse adjacent duplicates of a sorted list. -/
def dedupSorted : List (String × String) → List (String × String)
  | [] => []
  | [x] => [x]
  | x :: y :: r => if x = y then dedupSorted (y :: r) else x :: dedupSorted (y :: r)

/-- `pandas.Index.union` of two key sets: sorted union without duplicates
(pandas sorts when the two indexes are not equal). -/
def unionKeys (k1 k2 : List (String × String)) : List (String × String) :=
  dedupSorted (sortKeys (k1 ++ k2))

/-- Sum of the values a table holds at a key; `0` when the key is absent
(the `fill_value=0` of the merge). -/
def lookupSum (t : Table) (k : String × String) : Nat :=
  ((t.filter (fun r => r.1 = k)).map (fun r => r.2)).sum

/-- `df1.add(df2, fill_value=0)`: when the two indexes are equal, pandas
adds positionally without realigning; otherwise it aligns on the sorted
union of the keys, missing contributions counting as `0`. -/
def dfAdd (t1 t2 : Table) : Table :=
  if t1.map Prod.fst = t2.map Prod.fst then
    List.zipWith (fun a b => (a.1, a.2 + b.2)) t1 t2
  else
    (unionKeys (t1.map Prod.fst) (t2.map Prod.fst)).map
      (fun k => (k, lookupSum t1 k + lookupSum t2 k))

/-- `reduce(lambda df1, df2: df1.add(df2, fill_value=0), dfs)`. -/
def mergeAll : List Table → Table
  | [] => []
  | t :: ts => ts.foldl dfAdd t

/-- The `.out` files collected by the final glob: `apply_async` swallows a
failed task's error (nothing is written, nothing is raised), so only the
successful tasks' tables reach the merge. -/
def poolCollect (tasks : List (Except String Table)) : List Table :=
  tasks.filterMap (fun t => t.toOption)

/-- The dispatch-then-merge tail of `__main__`: merge whatever partial
tables the pool run left behind, with no completeness check. -/
def aggregateOutputs (tasks : List (Except String Table)) : Table :=
  mergeAll (poolCollect tasks)

/-- The whole counting pipeline on extracted reads: split the
newline-terminated sequence lines into `k` chunk files, run
`compute_results` on each chunk's concatenated content, and merge the
partial tables.  `reads` are the nucleotide line bodies (no newline). -/
def runPipeline (guides : List GuideEntry) (reads : List (List Char)) (k : Nat) : Table :=
  mergeAll ((array_split (reads.map (fun r => r ++ ['\n'])) k).map
    (fun part => computeResults guides part.join))

example :
    dfAdd [(("GeneA", "Ex1"), 3)] [(("GeneA", "Ex1"), 5), (("GeneB", "Ex2"), 1)]
      = [(("GeneA", "Ex1"), 8), (("GeneB", "Ex2"), 1)] := by decide

example :
    runPipeline [⟨"ACG", "G1", "E1"⟩] ["ACGT".data, "TTACG".data] 2
      = [(("G1", "E1"), 2)] := by decide

/-! ## The output rendering -/

/-- Decimal digit characters, as in `str(occurrence)`. -/
def digitChar : Nat → Char
  | 0 => '0' | 1 => '1' | 2 => '2' | 3 => '3' | 4 => '4'
  | 5 => '5' | 6 => '6' | 7 => '7' | 8 => '8' | 9 => '9'
  | _ => '*'

/-- Decimal rendering of a `Nat` with explicit fuel (the fuel `n + 1` of
`natDigits` always suffices since the argument at least halves). -/
def natDigitsF : Nat → Nat → List Char
  | 0, _ => []
  | f + 1, n =>
    if n < 10 then [digitChar n]
    else natDigitsF f (n / 10) ++ [digitChar (n % 10)]

/-- `str(n)` for a non-negative integer. -/
def natDigits (n : Nat) : List Char := natDigitsF (n + 1) n

example : natDigits 208 = ['2', '0', '8'] := by decide

/-- One data row of the output: `f'{gene}\t{exone}\t{occurence}\n'`. -/
def rowRender (r : (String × String) × Nat) : List Char :=
  r.1.1.data ++ '\t' :: (r.1.2.data ++ '\t' :: (natDigits r.2 ++ ['\n']))

/-- The final `dfs_sum.to_csv(out_f, sep='\t', line_terminator='\n')`: the
header names round-trip from the literal `'gene\texone\toccurence\n'` that
`compute_results` wrote into every partial file, then one row per
`FinalCount`. -/
def renderFinal (t : Table) : List Char :=
  "gene\texone\toccurence\n".data ++ (t.map rowRender).join

/-- First line of an output buffer (up to the first newline). -/
def headerLine (s : List Char) : List Char :=
  s.takeWhile (fun c => c != '\n')

example :
    headerLine (renderFinal [(("GeneA", "Ex1"), 8)]) = "gene\texone\toccurence".data := by
  decide

/-- The five nucleotide bytes of the read alphabet. -/
def nucAlphabet : List Char := ['A', 'C', 'G', 'T', 'N']

/-! ## Lemmas about the substring scanner -/

theorem isPrefixL_iff (p : List Char) : ∀ l, isPrefixL p l = true ↔ ∃ t, p ++ t = l := by
  induction p with
  | nil => intro l; simp [isPrefixL]
  | cons a p ih =>
    intro l
    cases l with
    | nil => simp [isPrefixL]
    | cons b l' =>
      simp only [isPrefixL, Bool.and_eq_true, decide_eq_true_eq, ih, List.cons_append,
        List.cons.injEq]
      constructor
      · rintro ⟨rfl, t, rfl⟩
        exact ⟨t, rfl, rfl⟩
      · rintro ⟨t, rfl, rfl⟩
        exact ⟨rfl, t, rfl⟩

theorem isPrefixL_length_le (p l : List Char) (h : isPrefixL p l = true) :
    p.length ≤ l.length := by
  obtain ⟨t, ht⟩ := (isPrefixL_iff p l).mp h
  subst ht
  simp [List.length_append]

theorem isPrefixL_append_right (p a zs : List Char) (h : isPrefixL p a = true) :
    isPrefixL p (a ++ zs) = true := by
  obtain ⟨t, ht⟩ := (isPrefixL_iff p a).mp h
  exact (isPrefixL_iff p (a ++ zs)).mpr ⟨t ++ zs, by rw [← ht, List.append_assoc]⟩

/-- A match of a newline-free pattern cannot straddle the `'\n'` separator:
a prefix match against `a ++ '\n' :: ys` is already a prefix match
against `a`. -/
theorem isPrefixL_of_append_sep (p a ys : List Char) (hnl : '\n' ∉ p)
    (h : isPrefixL p (a ++ '\n' :: ys) = true) : isPrefixL p a = true := by
  obtain ⟨t, ht⟩ := (isPrefixL_iff p (a ++ '\n' :: ys)).mp h
  have hp : List.take p.length (a ++ '\n' :: ys) = p := by
    rw [← ht, List.take_left]
  by_cases hle : p.length ≤ a.length
  · rw [List.take_append_eq_append_take, Nat.sub_eq_zero_of_le hle, List.take_zero,
      List.append_nil] at hp
    have hsplit := List.take_append_drop p.length a
    rw [hp] at hsplit
    exact (isPrefixL_iff p a).mpr ⟨List.drop p.length a, hsplit⟩
  · exfalso
    apply hnl
    rw [List.take_append_eq_append_take] at hp
    obtain ⟨m, hm⟩ : ∃ m, p.length - a.length = m + 1 :=
      ⟨p.length - a.length - 1, by omega⟩
    rw [hm, List.take_succ_cons] at hp
    rw [← hp]
    simp

theorem countOccAux_nil (pat : List Char) (k : Nat) : countOccAux pat k [] = 0 := rfl

theorem countOccAux_succ (pat : List Char) (s : Nat) (c : Char) (rest : List Char) :
    countOccAux pat (s + 1) (c :: rest) = countOccAux pat s rest := rfl

theorem countOccAux_zero_pos (pat : List Char) (c : Char) (rest : List Char)
    (h : isPrefixL pat (c :: rest) = true) (hne : pat ≠ []) :
    countOccAux pat 0 (c :: rest) = countOccAux pat (pat.length - 1) rest + 1 := by
  simp [countOccAux, h, hne]

theorem countOccAux_zero_neg (pat : List Char) (c : Char) (rest : List Char)
    (h : isPrefixL pat (c :: rest) = false) :
    countOccAux pat 0 (c :: rest) = countOccAux pat 0 rest := by
  simp [countOccAux, h]

/-- Separator lemma: a non-empty, newline-free pattern is counted
independently on the two sides of a `'\n'` byte.  The `skip` counter is the
tail of a match already begun, hence never longer than `xs`. -/
theorem countOccAux_split (pat : List Char) (hne : pat ≠ []) (hnl : '\n' ∉ pat) :
    ∀ (xs : List Char) (k : Nat), k ≤ xs.length → ∀ ys,
      countOccAux pat k (xs ++ '\n' :: ys) = countOccAux pat k xs + countOccAux pat 0 ys := by
  intro xs
  induction xs with
  | nil =>
    intro k hk ys
    have hk0 : k = 0 := by simpa using hk
    subst hk0
    have hpre : isPrefixL pat ('\n' :: ys) = false := by
      cases pat with
      | nil => exact absurd rfl hne
      | cons a p =>
        have ha : a ≠ '\n' := by
          intro h
          exact hnl (by simp [h])
        simp [isPrefixL, ha]
    rw [List.nil_append, countOccAux_zero_neg pat '\n' ys hpre, countOccAux_nil]
    omega
  | cons c xs' ih =>
    intro k hk ys
    cases k with
    | succ s =>
      rw [List.cons_append, countOccAux_succ, countOccAux_succ]
      exact ih s (by simp at hk; omega) ys
    | zero =>
      by_cases hp : isPrefixL pat (c :: xs') = true
      · have hp' : isPrefixL pat (c :: (xs' ++ '\n' :: ys)) = true := by
          have := isPrefixL_append_right pat (c :: xs') ('\n' :: ys) hp
          simpa using this
        have hlen : pat.length ≤ xs'.length + 1 := by
          simpa using isPrefixL_length_le pat (c :: xs') hp
        rw [List.cons_append, countOccAux_zero_pos pat c _ hp' hne,
          countOccAux_zero_pos pat c xs' hp hne, ih (pat.length - 1) (by omega) ys]
        omega
      · have hpb : isPrefixL pat (c :: xs') = false := by simpa using hp
        have hp2 : isPrefixL pat (c :: (xs' ++ '\n' :: ys)) = false := by
          by_contra hcon
          simp only [Bool.not_eq_false] at hcon
          exact hp (isPrefixL_of_append_sep pat (c :: xs') ys hnl (by simpa using hcon))
        rw [List.cons_append, countOccAux_zero_neg pat c _ hp2,
          countOccAux_zero_neg pat c xs' hpb]
        exact ih 0 (Nat.zero_le _) ys

/-- The trailing newline of a stored line never takes part in a match. -/
theorem countOcc_append_newline (pat : List Char) (hne : pat ≠ []) (hnl : '\n' ∉ pat)
    (r : List Char) : countOcc pat (r ++ ['\n']) = countOcc pat r := by
  have h := countOccAux_split pat hne hnl r 0 (Nat.zero_le _) []
  simpa [countOcc, countOccAux] using h

/-- A chunk file is the concatenation of newline-terminated lines; a
non-empty newline-free pattern is counted line by line in it. -/
theorem countOcc_flatten_lines (pat : List Char) (hne : pat ≠ []) (hnl : '\n' ∉ pat) :
    ∀ L : List (List Char), (∀ x ∈ L, ∃ r, x = r ++ ['\n']) →
      countOcc pat L.join = (L.map (countOcc pat)).sum := by
  intro L
  induction L with
  | nil => intro _; simp [countOcc, countOccAux]
  | cons x L' ih =>
    intro h
    obtain ⟨r, hr⟩ := h x (List.mem_cons_self x L')
    have hjoin : (x :: L').join = r ++ '\n' :: L'.join := by
      rw [List.join, hr]
      simp
    calc countOcc pat ((x :: L').join)
        = countOcc pat (r ++ '\n' :: L'.join) := by rw [hjoin]
      _ = countOcc pat r + countOcc pat L'.join :=
          countOccAux_split pat hne hnl r 0 (Nat.zero_le _) L'.join
      _ = countOcc pat x + (L'.map (countOcc pat)).sum := by
          rw [hr, countOcc_append_newline pat hne hnl,
            ih (fun y hy => h y (List.mem_cons_of_mem x hy))]
      _ = ((x :: L').map (countOcc pat)).sum := by simp

/-! ## Lemmas about the partitioner -/

theorem sum_replicate_nat (n x : Nat) : (List.replicate n x).sum = n * x := by
  induction n with
  | zero => simp
  | succ n ih => simp [List.replicate_succ, ih, Nat.succ_mul]; omega

theorem splitSizes_length (l k : Nat) (hk : 1 ≤ k) : (splitSizes l k).length = k := by
  have hmod : l % k < k := Nat.mod_lt _ (by omega)
  simp [splitSizes]
  omega

theorem splitSizes_sum (l k : Nat) (hk : 1 ≤ k) : (splitSizes l k).sum = l := by
  have hmod : l % k < k := Nat.mod_lt _ (by omega)
  have hdm : l % k + k * (l / k) = l := Nat.mod_add_div l k
  have h1 : (k - l % k) * (l / k) = k * (l / k) - l % k * (l / k) := Nat.sub_mul _ _ _
  have h2 : l % k * (l / k) ≤ k * (l / k) := Nat.mul_le_mul_right _ (le_of_lt hmod)
  have h3 : l % k * (l / k + 1) = l % k * (l / k) + l % k := by ring
  simp only [splitSizes, List.sum_append, sum_replicate_nat]
  omega

theorem splitBySizes_length {α : Type} :
    ∀ (ns : List Nat) (xs : List α), (splitBySizes xs ns).length = ns.length := by
  intro ns
  induction ns with
  | nil => intro xs; rfl
  | cons n ns ih => intro xs; simp [splitBySizes, ih]

theorem splitBySizes_join {α : Type} :
    ∀ (ns : List Nat) (xs : List α), (splitBySizes xs ns).join = xs.take ns.sum := by
  intro ns
  induction ns with
  | nil => intro xs; simp [splitBySizes]
  | cons n ns ih =>
    intro xs
    simp only [splitBySizes, List.join, List.flatten_cons, ih, List.sum_cons]
    rw [List.take_add]

theorem array_split_length {α : Type} (items : List α) (k : Nat) (hk : 1 ≤ k) :
    (array_split items k).length = k := by
  rw [array_split, splitBySizes_length, splitSizes_length _ _ hk]

theorem array_split_join {α : Type} (items : List α) (k : Nat) (hk : 1 ≤ k) :
    (array_split items k).join = items := by
  rw [array_split, splitBySizes_join, splitSizes_sum _ _ hk, List.take_length]

theorem mem_splitBySizes_length {α : Type} :
    ∀ (ns : List Nat) (xs : List α), ns.sum ≤ xs.length →
      ∀ c ∈ splitBySizes xs ns, ∃ n ∈ ns, c.length = n := by
  intro ns
  induction ns with
  | nil =>
    intro xs _ c hc
    simp [splitBySizes] at hc
  | cons n ns ih =>
    intro xs hsum c hc
    simp only [List.sum_cons] at hsum
    simp only [splitBySizes, List.mem_cons] at hc
    rcases hc with rfl | hc
    · refine ⟨n, List.mem_cons_self n ns, ?_⟩
      rw [List.length_take]
      omega
    · obtain ⟨m, hm, hlen⟩ := ih (xs.drop n) (by rw [List.length_drop]; omega) c hc
      exact ⟨m, List.mem_cons_of_mem n hm, hlen⟩

theorem mem_splitSizes (l k n : Nat) (h : n ∈ splitSizes l k) :
    n = l / k ∨ n = l / k + 1 := by
  simp only [splitSizes, List.mem_append, List.mem_replicate] at h
  rcases h with ⟨_, rfl⟩ | ⟨_, rfl⟩
  · exact Or.inr rfl
  · exact Or.inl rfl

theorem array_split_sizes {α : Type} (items : List α) (k : Nat) (hk : 1 ≤ k) :
    ∀ c ∈ array_split items k,
      c.length = items.length / k ∨ c.length = items.length / k + 1 := by
  intro c hc
  have hsum : (splitSizes items.length k).sum ≤ items.length := by
    rw [splitSizes_sum _ _ hk]
  obtain ⟨n, hn, hlen⟩ := mem_splitBySizes_length _ _ hsum c hc
  rcases mem_splitSizes _ _ _ hn with h | h
  · exact Or.inl (by omega)
  · exact Or.inr (by omega)

theorem splitBySizes_nil_input {α : Type} :
    ∀ ns : List Nat, splitBySizes ([] : List α) ns = ns.map (fun _ => []) := by
  intro ns
  induction ns with
  | nil => rfl
  | cons n ns ih => simp [splitBySizes, ih]

theorem array_split_nil {α : Type} (k : Nat) :
    array_split ([] : List α) k = List.replicate k [] := by
  have hsizes : splitSizes 0 k = List.replicate k 0 := by
    simp [splitSizes]
  rw [array_split, List.length_nil, hsizes, splitBySizes_nil_input, List.map_replicate]

/-! ## Lemmas about the merge -/

theorem mkTable_keys (guides : List GuideEntry) (v : GuideEntry → Nat) :
    (mkTable guides v).map Prod.fst = guides.map (fun g => (g.gene, g.exon)) := by
  simp [mkTable, List.map_map, Function.comp]

theorem zipWith_map_same {α β γ : Type} (l : List α) (f g : α → β) (h : β → β → γ) :
    List.zipWith h (l.map f) (l.map g) = l.map (fun x => h (f x) (g x)) := by
  induction l with
  | nil => rfl
  | cons x l ih => simp [ih]

/-- Adding two tables over the same guide list: the indexes are equal, so
pandas adds positionally. -/
theorem dfAdd_mkTable (guides : List GuideEntry) (v1 v2 : GuideEntry → Nat) :
    dfAdd (mkTable guides v1) (mkTable guides v2)
      = mkTable guides (fun g => v1 g + v2 g) := by
  have hkeys : (mkTable guides v1).map Prod.fst = (mkTable guides v2).map Prod.fst := by
    rw [mkTable_keys, mkTable_keys]
  rw [dfAdd, if_pos hkeys]
  simp [mkTable, zipWith_map_same]

theorem mkTable_congr (guides : List GuideEntry) (f g : GuideEntry → Nat)
    (h : ∀ x ∈ guides, f x = g x) : mkTable guides f = mkTable guides g := by
  unfold mkTable
  apply List.map_congr_left
  intro x hx
  rw [h x hx]

theorem foldl_dfAdd_mkTable (guides : List GuideEntry) :
    ∀ (cs : List (List Char)) (v0 : GuideEntry → Nat),
      (cs.map (fun c => computeResults guides c)).foldl dfAdd (mkTable guides v0)
        = mkTable guides
            (fun g => v0 g + (cs.map (fun c => countOcc g.code.data c)).sum) := by
  intro cs
  induction cs with
  | nil => intro v0; simp
  | cons c cs ih =>
    intro v0
    have hcr : computeResults guides c
        = mkTable guides (fun g => countOcc g.code.data c) := rfl
    simp only [List.map_cons, List.foldl_cons]
    rw [hcr, dfAdd_mkTable, ih]
    apply mkTable_congr
    intro g _
    simp [Nat.add_assoc]

theorem sum_sum_map_flatten {α : Type} (f : α → Nat) :
    ∀ ll : List (List α), (ll.map (fun l => (l.map f).sum)).sum = (ll.join.map f).sum := by
  intro ll
  induction ll with
  | nil => simp
  | cons l ll ih => simp [List.map_append, List.sum_append, ih]

/-- Per-pattern chunk decomposition: the chunk counts of a non-empty
newline-free pattern over any `k`-way split of the newline-terminated reads
sum to the per-read counts over all reads. -/
theorem chunk_sum_eq (pat : List Char) (hne : pat ≠ []) (hnl : '\n' ∉ pat)
    (reads : List (List Char)) (k : Nat) (hk : 1 ≤ k) :
    ((array_split (reads.map (fun r => r ++ ['\n'])) k).map
        (fun part => countOcc pat part.join)).sum
      = (reads.map (fun r => countOcc pat r)).sum := by
  set lines := reads.map (fun r => r ++ ['\n']) with hlines
  have hform : ∀ part ∈ array_split lines k, ∀ x ∈ part, ∃ r, x = r ++ ['\n'] := by
    intro part hpart x hx
    have hxl : x ∈ lines := by
      have hj : x ∈ (array_split lines k).join :=
        List.mem_flatten.mpr ⟨part, hpart, hx⟩
      rwa [array_split_join lines k hk] at hj
    rw [hlines] at hxl
    obtain ⟨r, _, hr⟩ := List.mem_map.mp hxl
    exact ⟨r, hr.symm⟩
  calc ((array_split lines k).map (fun part => countOcc pat part.join)).sum
      = ((array_split lines k).map (fun part => (part.map (countOcc pat)).sum)).sum := by
        apply congrArg List.sum
        apply List.map_congr_left
        intro part hpart
        exact countOcc_flatten_lines pat hne hnl part (hform part hpart)
    _ = ((array_split lines k).join.map (countOcc pat)).sum := sum_sum_map_flatten _ _
    _ = (lines.map (countOcc pat)).sum := by rw [array_split_join lines k hk]
    _ = (reads.map (fun r => countOcc pat r)).sum := by
        rw [hlines, List.map_map]
        apply congrArg List.sum
        apply List.map_congr_left
        intro r _
        exact countOcc_append_newline pat hne hnl r

/-- Characterization of the whole pipeline: for guide patterns that are
non-empty and newline-free, the final table has one row per guide, in
catalog order, holding the pattern's total count over all reads —
independently of the worker count. -/
theorem runPipeline_eq (guides : List GuideEntry) (reads : List (List Char)) (k : Nat)
    (hk : 1 ≤ k)
    (hg : ∀ g ∈ guides, g.code.data ≠ [] ∧ '\n' ∉ g.code.data) :
    runPipeline guides reads k
      = mkTable guides (fun g => (reads.map (fun r => countOcc g.code.data r)).sum) := by
  rw [runPipeline]
  set lines := reads.map (fun r => r ++ ['\n']) with hlines
  cases hparts : array_split lines k with
  | nil =>
    exfalso
    have hlen := array_split_length lines k hk
    rw [hparts] at hlen
    simp at hlen
    omega
  | cons p ps =>
    have hcr : ∀ c, computeResults guides c
        = mkTable guides (fun g => countOcc g.code.data c) := fun _ => rfl
    simp only [List.map_cons, mergeAll]
    rw [hcr, show ps.map (fun part => computeResults guides part.join)
          = (ps.map (fun part => part.join)).map (fun c => computeResults guides c) by
        rw [List.map_map]; rfl,
      foldl_dfAdd_mkTable]
    apply mkTable_congr
    intro g hgm
    obtain ⟨hne, hnl⟩ := hg g hgm
    have hsum := chunk_sum_eq g.code.data hne hnl reads k hk
    rw [← hlines, hparts] at hsum
    simpa [List.map_map] using hsum

/-! ## Lemmas about the extraction and the rendering -/

theorem mem_takeEvery4From1 {α : Type} :
    ∀ (l : List α) (x : α), x ∈ takeEvery4From1 l → x ∈ l := by
  intro l
  induction l using takeEvery4From1.induct with
  | case1 a x b c rest ih =>
    intro y hy
    rcases List.mem_cons.mp hy with rfl | hy
    · exact List.mem_cons_of_mem a (List.mem_cons_self y _)
    · exact List.mem_cons_of_mem a (List.mem_cons_of_mem x (List.mem_cons_of_mem b
        (List.mem_cons_of_mem c (ih y hy))))
  | case2 a x b =>
    intro y hy
    simp [takeEvery4From1] at hy
    simp [hy]
  | case3 a x =>
    intro y hy
    simp [takeEvery4From1] at hy
    simp [hy]
  | case4 h1 h2 h3 =>
    intro y hy
    simp [takeEvery4From1] at hy

theorem digitChar_ne_ctrl (m : Nat) : digitChar m ≠ '\n' ∧ digitChar m ≠ '\t' := by
  unfold digitChar
  split <;> exact ⟨by decide, by decide⟩

theorem natDigitsF_no_ctrl : ∀ f n : Nat, '\n' ∉ natDigitsF f n ∧ '\t' ∉ natDigitsF f n := by
  intro f
  induction f with
  | zero => intro n; simp [natDigitsF]
  | succ f ih =>
    intro n
    by_cases h : n < 10
    · simp only [natDigitsF, if_pos h]
      constructor
      · intro hm
        exact (digitChar_ne_ctrl n).1 (List.mem_singleton.mp hm).symm
      · intro hm
        exact (digitChar_ne_ctrl n).2 (List.mem_singleton.mp hm).symm
    · simp only [natDigitsF, if_neg h]
      constructor
      · intro hm
        rcases List.mem_append.mp hm with hm | hm
        · exact (ih (n / 10)).1 hm
        · exact (digitChar_ne_ctrl (n % 10)).1 (List.mem_singleton.mp hm).symm
      · intro hm
        rcases List.mem_append.mp hm with hm | hm
        · exact (ih (n / 10)).2 hm
        · exact (digitChar_ne_ctrl (n % 10)).2 (List.mem_singleton.mp hm).symm

theorem natDigits_no_ctrl (n : Nat) : '\n' ∉ natDigits n ∧ '\t' ∉ natDigits n :=
  natDigitsF_no_ctrl (n + 1) n

theorem takeWhile_append_newline :
    ∀ xs rest : List Char, '\n' ∉ xs →
      (xs ++ '\n' :: rest).takeWhile (fun c => c != '\n') = xs := by
  intro xs
  induction xs with
  | nil => intro rest _; simp [List.takeWhile_cons]
  | cons c xs ih =>
    intro rest hnl
    have hc : c ≠ '\n' := fun h => hnl (by simp [h])
    simp [List.takeWhile_cons, hc, ih rest (fun h => hnl (List.mem_cons_of_mem c h))]

theorem headerLine_renderFinal (t : Table) :
    headerLine (renderFinal t) = "gene\texone\toccurence".data := by
  have h1 : ("gene\texone\toccurence\n".data : List Char)
      = "gene\texone\toccurence".data ++ ['\n'] := by decide
  rw [headerLine, renderFinal, h1, List.append_assoc, List.singleton_append]
  exact takeWhile_append_newline _ _ (by decide)

theorem count_newline_rowRender (r : (String × String) × Nat)
    (h1 : '\n' ∉ r.1.1.data) (h2 : '\n' ∉ r.1.2.data) :
    (rowRender r).count '\n' = 1 := by
  simp [rowRender, List.count_append,
    List.count_cons_of_ne (show ('\n' : Char) ≠ '\t' by decide),
    List.count_eq_zero.mpr h1, List.count_eq_zero.mpr h2,
    List.count_eq_zero.mpr (natDigits_no_ctrl r.2).1]

theorem count_newline_rows :
    ∀ rows : Table, (∀ r ∈ rows, '\n' ∉ r.1.1.data ∧ '\n' ∉ r.1.2.data) →
      ((rows.map rowRender).join).count '\n' = rows.length := by
  intro rows
  induction rows with
  | nil => intro _; simp
  | cons r rows ih =>
    intro hr
    have h0 := hr r (List.mem_cons_self r rows)
    simp [List.count_append, count_newline_rowRender r h0.1 h0.2,
      ih (fun y hy => hr y (List.mem_cons_of_mem r hy))]
    omega

theorem count_newline_renderFinal (t : Table)
    (h : ∀ r ∈ t, '\n' ∉ r.1.1.data ∧ '\n' ∉ r.1.2.data) :
    (renderFinal t).count '\n' = t.length + 1 := by
  rw [renderFinal, List.count_append, count_newline_rows t h]
  have hhdr : ("gene\texone\toccurence\n".data).count '\n' = 1 := by decide
  rw [hhdr]
  omega

theorem rowRender_last (r : (String × String) × Nat) :
    (rowRender r).getLast? = some '\n' := by
  have hshape : rowRender r
      = (r.1.1.data ++ '\t' :: (r.1.2.data ++ '\t' :: natDigits r.2)) ++ ['\n'] := by
    simp [rowRender]
  rw [hshape, List.getLast?_concat]

/-! ## Claim theorems -/

/-- C1: in the quality-reading state, a line starting with "@" is treated
as more quality data (stripped and appended, staying in the quality state)
exactly when the quality accumulated so far is shorter than the sequence;
otherwise it ends the record.  Consequently the canonical four-record
tricky example — whose second record's quality starts with "@" and whose
fourth record's quality is split over two lines, one starting with "@" —
is parsed into exactly the four expected records with their full quality
strings. -/
theorem claim_c1 :
    (∀ (recs : List RecL) (t s q : List Char) (st : Bool) (l : List Char),
        startsWithL '@' l = true →
        (fqStep recs (PState.readingQual t s q st) l
            = Except.ok (recs, PState.readingQual t s (q ++ rstripL l) true)
          ↔ q.length < s.length))
      ∧ fastqGeneralIterator trickyFastq = Except.ok trickyRecords := by
  constructor
  · intro recs t s q st l hl
    constructor
    · intro heq
      by_contra hqs
      push_neg at hqs
      have hcond : (startsWithL '@' l = true) ∧ s.length ≤ q.length := ⟨hl, hqs⟩
      simp only [fqStep] at heq
      rw [if_pos hcond] at heq
      by_cases hEq : s.length = q.length
      · rw [if_pos hEq] at heq
        simp at heq
      · rw [if_neg hEq] at heq
        simp at heq
    · intro hlt
      have hcond : ¬ ((startsWithL '@' l = true) ∧ s.length ≤ q.length) := by
        rintro ⟨_, hle⟩
        omega
      simp only [fqStep]
      rw [if_neg hcond]
  · rfl

/-- Witness for C1: a concrete quality line starting with "@" while the
quality is still short is stripped and appended. -/
theorem claim_c1_witness :
    fqStep [] (PState.readingQual "T".data "ACGT".data "AB".data true) "@CD".data
      = Except.ok ([], PState.readingQual "T".data "ACGT".data
          ("AB".data ++ rstripL "@CD".data) true) :=
  (claim_c1.1 [] "T".data "ACGT".data "AB".data true "@CD".data (by decide)).mpr
    (by decide)

/-- C2: for pattern "ATGCACA" and the chunk ["ATGCACACACA", "TGNTTTACGAA",
"ATGCACAATGCACA"], the per-read presence counter `my_grep_calc` returns 2
— the number of reads containing the pattern at least once — even though
the pattern occurs twice inside the third read (second conjunct). -/
theorem claim_c2 :
    my_grep_calc "ATGCACA" ["ATGCACACACA", "TGNTTTACGAA", "ATGCACAATGCACA"] = 2
      ∧ countOcc "ATGCACA".data "ATGCACAATGCACA".data = 2 := by
  constructor <;> decide

/-- The counter that is actually present in `main.py` (total non-overlapping
substring matches over the concatenated chunk) yields 3, not 2, on the
same input — the alternate semantic the spec flags. -/
theorem mmap_grep_calc_on_c2_input :
    mmap_grep_calc "ATGCACA" "ATGCACACACA\nTGNTTTACGAA\nATGCACAATGCACA\n".data = 3 := by
  decide

/-- C3: the claim fails on the code.  The dispatch loop never inspects the
`apply_async` results, so a failed task (here: the second of two scheduled
tasks raises) is silently dropped and the merge still emits a table built
from the surviving partial results instead of failing the aggregation. -/
theorem claim_c3 :
    aggregateOutputs
        [Except.ok [(("GeneA", "Ex1"), 3)],
         Except.error "TypeError: compute_results() missing positional arguments"]
      = [(("GeneA", "Ex1"), 3)] := rfl

/-- C4: `np.array_split(items, K)` returns exactly K ordered groups whose
concatenation in chunk order is the original list, the sizes of any two
groups differ by at most one, and the empty list yields K empty chunks. -/
theorem claim_c4 {α : Type} (items : List α) (k : Nat) (hk : 1 ≤ k) :
    (array_split items k).length = k
      ∧ (array_split items k).join = items
      ∧ (∀ c1 ∈ array_split items k, ∀ c2 ∈ array_split items k,
          c1.length ≤ c2.length + 1)
      ∧ array_split ([] : List α) k = List.replicate k [] := by
  refine ⟨array_split_length items k hk, array_split_join items k hk, ?_,
    array_split_nil k⟩
  intro c1 h1 c2 h2
  rcases array_split_sizes items k hk c1 h1 with ha | ha <;>
    rcases array_split_sizes items k hk c2 h2 with hb | hb <;> omega

/-- Witness for C4 at `items = [0, 1, 2]`, `K = 2`. -/
theorem claim_c4_witness :
    (array_split [0, 1, 2] 2).length = 2
      ∧ (array_split [0, 1, 2] 2).join = [0, 1, 2]
      ∧ (∀ c1 ∈ array_split [0, 1, 2] 2, ∀ c2 ∈ array_split [0, 1, 2] 2,
          c1.length ≤ c2.length + 1)
      ∧ array_split ([] : List Nat) 2 = List.replicate 2 [] :=
  claim_c4 [0, 1, 2] 2 (by decide)

/-- C5: the merge sums partial counts per (gene, exon) key with missing
contributions as zero — the claim's concrete two-chunk example — and a
guide whose pattern matches nowhere still appears in the final table with
occurrence 0. -/
theorem claim_c5 :
    dfAdd [(("GeneA", "Ex1"), 3)] [(("GeneA", "Ex1"), 5), (("GeneB", "Ex2"), 1)]
        = [(("GeneA", "Ex1"), 8), (("GeneB", "Ex2"), 1)]
      ∧ ∀ (guides : List GuideEntry) (reads : List (List Char)) (k : Nat)
          (g : GuideEntry), 1 ≤ k →
          (∀ g' ∈ guides, g'.code.data ≠ [] ∧ '\n' ∉ g'.code.data) →
          g ∈ guides →
          (∀ r ∈ reads, countOcc g.code.data r = 0) →
          ((g.gene, g.exon), 0) ∈ runPipeline guides reads k := by
  constructor
  · decide
  · intro guides reads k g hk hg hmem hzero
    rw [runPipeline_eq guides reads k hk hg]
    have hs : (reads.map (fun r => countOcc g.code.data r)).sum = 0 := by
      apply List.sum_eq_zero
      intro x hx
      obtain ⟨r, hr, hxx⟩ := List.mem_map.mp hx
      rw [← hxx]
      exact hzero r hr
    simp only [mkTable]
    exact List.mem_map.mpr ⟨g, hmem, by rw [hs]⟩

/-- Witness for C5's zero-fill conjunct: a guide matching nowhere appears
with occurrence 0. -/
theorem claim_c5_witness :
    (("G1", "E1"), 0) ∈ runPipeline [⟨"AAA", "G1", "E1"⟩] ["CCCC".data] 1 :=
  claim_c5.2 [⟨"AAA", "G1", "E1"⟩] ["CCCC".data] 1 ⟨"AAA", "G1", "E1"⟩ (by decide)
    (by decide) (by decide) (by decide)

/-- C6: for a fixed read list and guide catalog, the pipeline produces the
same final table for any two worker counts K, K' ≥ 1. -/
theorem claim_c6 (guides : List GuideEntry) (reads : List (List Char)) (k k' : Nat)
    (hk : 1 ≤ k) (hk' : 1 ≤ k')
    (hg : ∀ g ∈ guides, g.code.data ≠ [] ∧ '\n' ∉ g.code.data) :
    runPipeline guides reads k = runPipeline guides reads k' := by
  rw [runPipeline_eq guides reads k hk hg, runPipeline_eq guides reads k' hk' hg]

/-- Witness for C6 at K = 1 versus K = 3. -/
theorem claim_c6_witness :
    runPipeline [⟨"ACG", "G1", "E1"⟩] ["ACGT".data, "TTACG".data, "GGACG".data] 1
      = runPipeline [⟨"ACG", "G1", "E1"⟩] ["ACGT".data, "TTACG".data, "GGACG".data] 3 :=
  claim_c6 [⟨"ACG", "G1", "E1"⟩] ["ACGT".data, "TTACG".data, "GGACG".data] 1 3
    (by decide) (by decide) (by decide)

/-- C7 counterexample: two catalog entries with distinct codes but the same
(gene, exon) pair yield two rows carrying that pair, so the emitted table
does not have one row per distinct (gene, exon) pair of the catalog. -/
theorem claim_c7_counterexample :
    runPipeline [⟨"AAA", "GeneA", "Ex1"⟩, ⟨"CCC", "GeneA", "Ex1"⟩] ["AAACCC".data] 1
        = [(("GeneA", "Ex1"), 1), (("GeneA", "Ex1"), 1)]
      ∧ ¬ ((runPipeline [⟨"AAA", "GeneA", "Ex1"⟩, ⟨"CCC", "GeneA", "Ex1"⟩]
            ["AAACCC".data] 1).map Prod.fst).Nodup := by
  constructor
  · rfl
  · decide

/-- C7 amended: the final table has exactly one row per guide-catalog
entry, keyed by that entry's (gene, exon) pair, in catalog declaration
order (hence one row per distinct pair whenever distinct entries carry
distinct pairs), independent of worker completion order. -/
theorem claim_c7_amended (guides : List GuideEntry) (reads : List (List Char))
    (k : Nat) (hk : 1 ≤ k)
    (hg : ∀ g ∈ guides, g.code.data ≠ [] ∧ '\n' ∉ g.code.data) :
    (runPipeline guides reads k).map Prod.fst
      = guides.map (fun g => (g.gene, g.exon)) := by
  rw [runPipeline_eq guides reads k hk hg, mkTable_keys]

/-- Witness for the amended C7. -/
theorem claim_c7_amended_witness :
    (runPipeline [⟨"AAA", "GeneA", "Ex1"⟩, ⟨"CCC", "GeneB", "Ex2"⟩]
        ["AAA".data] 1).map Prod.fst
      = [("GeneA", "Ex1"), ("GeneB", "Ex2")] :=
  claim_c7_amended [⟨"AAA", "GeneA", "Ex1"⟩, ⟨"CCC", "GeneB", "Ex2"⟩] ["AAA".data] 1
    (by decide) (by decide)

/-- C8 counterexample: a stream that ends while the accumulated quality
(here "AB", length 2) is still shorter than the sequence (length 4) fails
with the length-mismatch error, not with the distinct truncation error the
claim requires. -/
theorem claim_c8_counterexample :
    fastqGeneralIterator ["@seq1", "ACGT", "+", "AB"]
      = Except.error (FqError.lengthMismatch "seq1" 4 2) := rfl

/-- C8 amended: when the stream ends mid-quality, the reader fails with the
truncation error ("Unexpected end of file") only if no quality line at all
was read; once at least one quality line was consumed, a short quality is
reported as `LengthMismatch(title, expected, actual)`. -/
theorem claim_c8_amended (t s q : List Char) (recs : List RecL)
    (h : q.length < s.length) :
    fqFinish recs (PState.readingQual t s q false) = Except.error FqError.unexpectedEof
      ∧ fqFinish recs (PState.readingQual t s q true)
        = Except.error (FqError.lengthMismatch (String.mk t) s.length q.length) := by
  constructor
  · rfl
  · have hne : s.length ≠ q.length := by omega
    simp only [fqFinish]
    rw [if_neg hne]

/-- Witness for the amended C8 at a concrete short quality. -/
theorem claim_c8_amended_witness :
    fqFinish [] (PState.readingQual "x".data "ACGT".data "AB".data false)
        = Except.error FqError.unexpectedEof
      ∧ fqFinish [] (PState.readingQual "x".data "ACGT".data "AB".data true)
        = Except.error (FqError.lengthMismatch (String.mk "x".data) 4 2) :=
  claim_c8_amended "x".data "ACGT".data "AB".data [] (by decide)

/-- C9 counterexample: the emitted header line is the code's literal
`gene\texone\toccurence` (column names "exone" and "occurence"), which is
not the claimed `gene\texon\toccurrence`. -/
theorem claim_c9_counterexample :
    headerLine (renderFinal [(("GeneA", "Ex1"), 8)]) = "gene\texone\toccurence".data
      ∧ "gene\texone\toccurence".data ≠ "gene\texon\toccurrence".data := by
  constructor
  · decide
  · decide

/-- C9 amended: the output is tab-separated with header line exactly
`gene\texone\toccurence`, and one newline-terminated row per FinalCount
(so the newline count is the row count plus the header's). -/
theorem claim_c9_amended (t : Table)
    (h : ∀ r ∈ t, '\n' ∉ r.1.1.data ∧ '\n' ∉ r.1.2.data) :
    headerLine (renderFinal t) = "gene\texone\toccurence".data
      ∧ (renderFinal t).count '\n' = t.length + 1
      ∧ ∀ r ∈ t, (rowRender r).getLast? = some '\n' :=
  ⟨headerLine_renderFinal t, count_newline_renderFinal t h,
    fun r _ => rowRender_last r⟩

/-- Witness for the amended C9 on a one-row table. -/
theorem claim_c9_amended_witness :
    headerLine (renderFinal [(("GeneA", "Ex1"), 8)]) = "gene\texone\toccurence".data
      ∧ (renderFinal [(("GeneA", "Ex1"), 8)]).count '\n' = 1 + 1
      ∧ ∀ r ∈ [(("GeneA", "Ex1"), 8)], (rowRender r).getLast? = some '\n' :=
  claim_c9_amended [(("GeneA", "Ex1"), 8)] (by decide)

/-- C10: the extracted nucleotide lines keep their trailing newline byte,
and a chunk file (the concatenation of newline-terminated reads) gives a
non-empty pattern over {A, C, G, T, N} a count equal to the sum of the
per-read counts — no match spans two adjacent reads. -/
theorem claim_c10 (pat : List Char) (reads : List (List Char))
    (lines : List (List Char)) (hne : pat ≠ [])
    (halpha : ∀ c ∈ pat, c ∈ nucAlphabet) :
    countOcc pat ((reads.map (fun r => r ++ ['\n'])).join)
        = (reads.map (fun r => countOcc pat r)).sum
      ∧ ((∀ l ∈ lines, l.getLast? = some '\n') →
          ∀ x ∈ get_nucleotides_from_fq lines, x.getLast? = some '\n') := by
  have hnl : '\n' ∉ pat := by
    intro hmem
    have := halpha '\n' hmem
    simp [nucAlphabet] at this
  constructor
  · rw [countOcc_flatten_lines pat hne hnl (reads.map (fun r => r ++ ['\n']))
      (by
        intro x hx
        obtain ⟨r, _, hr⟩ := List.mem_map.mp hx
        exact ⟨r, hr.symm⟩),
      List.map_map]
    apply congrArg List.sum
    apply List.map_congr_left
    intro r _
    exact countOcc_append_newline pat hne hnl r
  · intro hl x hx
    exact hl x (mem_takeEvery4From1 lines x hx)

/-- Witness for C10 on a concrete chunk and a concrete four-line file. -/
theorem claim_c10_witness :
    countOcc "ACG".data ((["ACGT".data, "TTACG".data].map (fun r => r ++ ['\n'])).join)
        = (["ACGT".data, "TTACG".data].map (fun r => countOcc "ACG".data r)).sum
      ∧ ∀ x ∈ get_nucleotides_from_fq
          ["@t".data ++ ['\n'], "ACGT".data ++ ['\n'], "+".data ++ ['\n'],
            "IIII".data ++ ['\n']],
          x.getLast? = some '\n' :=
  ⟨(claim_c10 "ACG".data ["ACGT".data, "TTACG".data]
      ["@t".data ++ ['\n'], "ACGT".data ++ ['\n'], "+".data ++ ['\n'],
        "IIII".data ++ ['\n']] (by decide) (by decide)).1,
   (claim_c10 "ACG".data ["ACGT".data, "TTACG".data]
      ["@t".data ++ ['\n'], "ACGT".data ++ ['\n'], "+".data ++ ['\n'],
        "IIII".data ++ ['\n']] (by decide) (by decide)).2 (by decide)⟩
